import Mathlib

/-!
Verification development for the `angewandte` PDF-AI search application
(SvelteKit frontend with a FastAPI retrieval backend).

Frontend functions (`api`, `apiUrl`, `persisted`, `doSearch`, `askAI`,
`removeDoc`, `upload`) are embedded from the TypeScript/Svelte sources.
Backend components absent from the source tree (Chunker, VectorIndex,
IngestionPipeline, AnswerComposer) are modelled from the specification;
each such definition carries a doc comment saying so.
-/

namespace Angewandte

/-! ## JavaScript-style helpers -/

/-- JS truthiness fallback for strings: models the expression
`v || d` where `v : string | undefined` — the default is used when the
value is `undefined` or the empty string. -/
def jsOr (v : Option String) (d : String) : String :=
  match v with
  | none => d
  | some s => if s = "" then d else s

/-- Models `v || null` for an optional string field: a missing or empty
string collapses to `null`. -/
def jsOrNull (v : Option String) : Option String :=
  match v with
  | none => none
  | some s => if s = "" then none else some s

/-- Models `Array.prototype.slice(-n)`: the last `n` elements of the
list (the whole list when it is shorter than `n`). -/
def takeLast (n : Nat) (l : List α) : List α :=
  l.drop (l.length - n)

/-- JS whitespace for `String.prototype.trim` (space, tab, line
terminators, form/vertical feed). -/
def jsSpace (c : Char) : Bool :=
  c = ' ' || c = Char.ofNat 9 || c = Char.ofNat 10 || c = Char.ofNat 13 ||
    c = Char.ofNat 11 || c = Char.ofNat 12

/-- Model of `String.prototype.trim`: strip JS whitespace from both
ends. -/
def jsTrim (s : String) : String :=
  String.mk (((s.data.dropWhile jsSpace).reverse.dropWhile jsSpace).reverse)

/-- Model of `String.prototype.startsWith`. -/
def strStartsWith (s pfx : String) : Bool :=
  pfx.data.isPrefixOf s.data

/-! ## API base resolution (frontend/src/lib/api.ts and the unnamed
variant of the same module)

The environment is the optional value of `import.meta.env.VITE_API_BASE`
(`none` = variable undefined). -/

/-- `api` from the unnamed module variant (src/unnamed/part_000):
`const base = import.meta.env.VITE_API_BASE || 'http://localhost:8000'`;
the fetched URL is `base + path`. -/
def apiUrlUnnamed (env : Option String) (path : String) : String :=
  jsOr env "http://localhost:8000" ++ path

/-- `api` from frontend/src/lib/api.ts:
`const base = import.meta.env.VITE_API_BASE || ''`; the fetched URL is
`base + path`. -/
def apiUrlLib (env : Option String) (path : String) : String :=
  jsOr env "" ++ path

/-- `apiUrl` from frontend/src/lib/api.ts: same base resolution as its
`api`, returning `base + path` for XHR use. -/
def apiUrlFn (env : Option String) (path : String) : String :=
  jsOr env "" ++ path

/-! ## URL component encoding

Model of `encodeURIComponent`: every character outside the unreserved
set (alphanumerics and `- _ . ! ~ * ' ( )`) is replaced by the
percent-encoding of its UTF-8 bytes, uppercase hex. -/

/-- Characters `encodeURIComponent` leaves unescaped. -/
def uriUnreserved (c : Char) : Bool :=
  c.isAlphanum || c = '-' || c = '_' || c = '.' || c = '!' || c = '~' ||
    c = '*' || c = Char.ofNat 39 || c = '(' || c = ')'

/-- Uppercase hexadecimal digit for `n < 16`. -/
def hexDigitU (n : Nat) : Char :=
  if n < 10 then Char.ofNat (48 + n) else Char.ofNat (55 + n)

/-- UTF-8 byte sequence of a unicode scalar value. -/
def utf8Bytes (c : Char) : List Nat :=
  let v := c.toNat
  if v < 128 then [v]
  else if v < 2048 then [192 + v / 64, 128 + v % 64]
  else if v < 65536 then [224 + v / 4096, 128 + (v / 64) % 64, 128 + v % 64]
  else [240 + v / 262144, 128 + (v / 4096) % 64, 128 + (v / 64) % 64, 128 + v % 64]

/-- Percent-encode one byte. -/
def pctByte (b : Nat) : List Char :=
  ['%', hexDigitU (b / 16), hexDigitU (b % 16)]

/-- Model of `encodeURIComponent`. -/
def encodeURIComponent (s : String) : String :=
  String.mk (s.data.flatMap fun c =>
    if uriUnreserved c then [c] else (utf8Bytes c).flatMap pctByte)

/-! ## Request paths issued by the client -/

/-- Upload target of `upload()` in upload/+page.svelte:
`xhr.open('POST', apiUrl('/api/upload'), true)` with a multipart
`FormData` body. -/
def clientUploadPath : String := "/api/upload"

/-- HTTP method of the client upload request. -/
def clientUploadMethod : String := "POST"

/-- Search URL built by `doSearch()` in routes/+page.svelte:
`api(`/api/search?q=${encodeURIComponent(q)}&top_k=8`)`. -/
def clientSearchPath (q : String) : String :=
  "/api/search?q=" ++ encodeURIComponent q ++ "&top_k=8"

/-- Modelled from the spec: section 6 lists the upload endpoint as
`POST /upload` (multipart file). -/
def spec6UploadPath : String := "/upload"

/-- Modelled from the spec: section 6 lists the search endpoint as
`GET /search?q=&top_k=` with the query and result-count parameters
URL-encoded in the query string. -/
def spec6SearchPath (q : String) (topK : Nat) : String :=
  "/search?q=" ++ encodeURIComponent q ++ "&top_k=" ++ toString topK

/-! ## Chat data model (frontend/src/lib/stores/chat.ts and
routes/+page.svelte) -/

/-- `type ChatMessage = { role: 'user' | 'assistant'; content: string }`. -/
inductive Role where
  | user
  | assistant
deriving DecidableEq, Repr

structure ChatMessage where
  role : Role
  content : String
deriving DecidableEq, Repr

/-- The persona keys of the `personalities` record in
routes/+page.svelte. -/
inductive Persona where
  | neutral
  | conservator
  | teacher
deriving DecidableEq, Repr

/-- The `personalities` record: ordered system instruction statements
per persona. -/
def personalities : Persona → List String
  | .neutral => ["You are a helpful AI that answers concisely and factually."]
  | .conservator =>
      ["You are an expert in conservation techniques.",
       "You explain materials and processes clearly."]
  | .teacher =>
      ["You are a teacher who explains complex concepts in simple terms.",
       "Use analogies and examples in your answers."]

/-- Body of the `POST /api/ask` request built by `askAI`. -/
structure AskRequest where
  question : String
  top_k : Nat
  personality : List String
  history : List ChatMessage
deriving DecidableEq, Repr

/-- The request-building prefix of `askAI()` in routes/+page.svelte:
trims the draft input, returns early when it is empty, captures the
last 12 prior messages as history BEFORE appending the new user turn,
then issues the request body. Returns the request together with the
message list as it stands when the request is sent. -/
def askAI (input : String) (msgs : List ChatMessage) (p : Persona) :
    Option (AskRequest × List ChatMessage) :=
  let q := jsTrim input
  if q = "" then none
  else
    let historyBefore := takeLast 12 msgs
    let msgs' := msgs ++ [⟨Role.user, q⟩]
    some ({ question := q, top_k := 8, personality := personalities p,
            history := historyBefore }, msgs')

/-! ## Search UI state transition (doSearch, routes/+page.svelte) -/

/-- One entry of the search response's `results` array. -/
structure SearchHit where
  score : Int
  document : String
  page : Nat
  snippet : String
deriving DecidableEq, Repr

/-- Parsed body of a successful `/api/search` response; both fields may
be absent. -/
structure SearchData where
  results : Option (List SearchHit)
  note : Option String
deriving DecidableEq, Repr

/-- `doSearch()` in routes/+page.svelte as a transition on the
`(results, note)` component state: early return on an empty trimmed
query; on a fetch/JSON failure the catch block leaves `results` alone
and sets `note = 'Search failed.'`; on success `results = data.results
|| []` and `note = data.note || null`. The function is total: no
exception escapes. -/
def doSearch (input : String) (resp : Except Unit SearchData)
    (results : List SearchHit) (note : Option String) :
    List SearchHit × Option String :=
  if jsTrim input = "" then (results, note)
  else
    match resp with
    | .error _ => (results, some "Search failed.")
    | .ok d => (d.results.getD [], jsOrNull d.note)

/-! ## Document list deletion (removeDoc, upload/+page.svelte) -/

/-- A row of the client's document list (fields not inspected by
`removeDoc` are summarised by `filename`). -/
structure DocItem where
  id : String
  filename : String
deriving DecidableEq, Repr

/-- Parsed body of the DELETE response; the `ok` field may be absent. -/
structure DeleteResp where
  ok : Option Bool
deriving DecidableEq, Repr

/-- `removeDoc(id)` in upload/+page.svelte as a transition on the
`docs` list: nothing happens without the confirm dialog; a thrown
fetch/JSON error (`resp = none`) is caught and leaves `docs` alone, as
does a response whose `ok` is not `true`; on `ok: true` the list is
filtered to the rows whose id differs. -/
def removeDoc (confirmed : Bool) (resp : Option DeleteResp) (id : String)
    (docs : List DocItem) : List DocItem :=
  if !confirmed then docs
  else
    match resp with
    | none => docs
    | some r =>
        if r.ok.getD false then docs.filter (fun d => d.id ≠ id) else docs

/-! ## Chunker (backend component, absent from the source tree) -/

/-- Worker for `chunkOffsets`: emits `start` while it lies inside the
page, stopping after the first window that reaches the end. `fuel`
bounds recursion depth. -/
def chunkGo (step size n : Nat) : Nat → Nat → List Nat
  | _, 0 => []
  | start, fuel + 1 =>
      if start < n then
        start :: (if n ≤ start + size then [] else chunkGo step size n (start + step) fuel)
      else []

/-- Modelled from the spec: the Chunker (section 4.2), absent from the
source tree. On a page of `n` characters, slide a window of size `S`
advancing by `S − O` until the page is exhausted; the final partial
window is emitted even if shorter than `S`. Returns the list of window
start offsets. -/
def chunkOffsets (S O n : Nat) : List Nat :=
  chunkGo (S - O) S n 0 (n + 1)

/-- The chunk texts of one page: the window of size `S` at each offset
(character-based slicing, as the final window may be shorter). -/
def chunkTexts (S O : Nat) (page : List Char) : List (List Char) :=
  (chunkOffsets S O page.length).map fun off => (page.drop off).take S

/-! ## VectorIndex (backend component, absent from the source tree) -/

/-- One physical entry of the vector index: its embedding vector plus a
tombstone flag. The entry's position in the index list is its internal
id and equals insertion order. -/
structure IndexEntry where
  vec : List Int
  tomb : Bool
deriving DecidableEq, Repr

/-- Inner-product similarity (the instantiation's fixed similarity). -/
def dot : List Int → List Int → Int
  | a :: as, b :: bs => a * b + dot as bs
  | _, _ => 0

/-- Ranking preorder on scored candidates `(internal_id, score)`:
higher score first, ties broken by smaller internal id (earlier
insertion wins). -/
def rankLe (a b : Nat × Int) : Prop :=
  b.2 < a.2 ∨ (a.2 = b.2 ∧ a.1 ≤ b.1)

instance : DecidableRel rankLe := fun a b => by
  unfold rankLe; infer_instance

instance : IsTotal (Nat × Int) rankLe := by
  constructor
  intro a b
  rcases lt_trichotomy a.2 b.2 with h | h | h
  · exact Or.inr (Or.inl h)
  · rcases Nat.le_total a.1 b.1 with h1 | h1
    · exact Or.inl (Or.inr ⟨h, h1⟩)
    · exact Or.inr (Or.inr ⟨h.symm, h1⟩)
  · exact Or.inl (Or.inl h)

instance : IsTrans (Nat × Int) rankLe := by
  constructor
  rintro a b c (h1 | ⟨h1, h1'⟩) (h2 | ⟨h2, h2'⟩)
  · exact Or.inl (h2.trans h1)
  · exact Or.inl (h2 ▸ h1)
  · exact Or.inl (h1 ▸ h2)
  · exact Or.inr ⟨h1.trans h2, h1'.trans h2'⟩

/-- The live scored candidates of an index against a query vector:
every non-tombstoned entry paired with its internal id and score. -/
def liveScored (idx : List IndexEntry) (q : List Int) : List (Nat × Int) :=
  (idx.enum.filter fun p => !p.2.tomb).map fun p => (p.1, dot q p.2.vec)

/-- Modelled from the spec: `VectorIndex.search` (section 4.4), absent
from the source tree. Scores every live entry against the query, orders
by similarity descending with ties broken by insertion order, and
truncates to `k` — never padding when fewer live entries exist. -/
def indexSearch (idx : List IndexEntry) (q : List Int) (k : Nat) :
    List (Nat × Int) :=
  (List.insertionSort rankLe (liveScored idx q)).take k

/-! ## MetadataStore, IngestionPipeline and deletion (backend
components, absent from the source tree) -/

/-- A chunk record of the metadata store. -/
structure Chunk where
  doc : Nat
  seq : Nat
  page : Nat
  text : List Char
deriving DecidableEq, Repr

/-- A vector-index entry as the ingestion/deletion path sees it: the
owning document plus the tombstone flag. -/
structure VecRef where
  doc : Nat
  tomb : Bool
deriving DecidableEq, Repr

/-- The two stores the pipeline keeps in lockstep. -/
structure Store where
  docs : List (Nat × Nat)
  chunks : List Chunk
  vecs : List VecRef
deriving DecidableEq, Repr

/-- Chunks produced for one document from its extracted pages: empty
pages are dropped from chunking, non-empty pages are windowed by the
Chunker; page numbers are the 1-based page indices, sequence indices
enumerate reading order. -/
def docChunks (S O : Nat) (doc : Nat) (pages : List (List Char)) :
    List Chunk :=
  ((pages.enum.flatMap fun p =>
      if p.2.isEmpty then []
      else (chunkTexts S O p.2).map fun t => (p.1 + 1, t)).enum.map
    fun s => { doc := doc, seq := s.1, page := s.2.1, text := s.2.2 })

/-- Modelled from the spec: the IngestionPipeline (section 4.6), absent
from the source tree. Extraction yielding zero pages, or chunking
yielding zero chunks (all pages empty), fails the whole ingestion with
no store mutation; otherwise the document record, its chunk batch and
their live vectors are committed together. -/
def ingest (S O : Nat) (st : Store) (doc : Nat)
    (pages : List (List Char)) : Option Store :=
  if pages.isEmpty then none
  else
    let cs := docChunks S O doc pages
    if cs.isEmpty then none
    else some
      { docs := st.docs ++ [(doc, pages.length)]
        chunks := st.chunks ++ cs
        vecs := st.vecs ++ cs.map fun c => { doc := c.doc, tomb := false } }

/-- Modelled from the spec: the deletion path (sections 3, 4.4, 4.5),
absent from the source tree. Deletes the document record, cascades to
its chunk records, and soft-deletes (tombstones) its vectors so no live
vector-index entry references the document any more. -/
def deleteDoc (st : Store) (doc : Nat) : Store :=
  { docs := st.docs.filter fun d => d.1 ≠ doc
    chunks := st.chunks.filter fun c => c.doc ≠ doc
    vecs := st.vecs.map fun v => if v.doc = doc then { v with tomb := true } else v }

/-- Live chunk count of a document in the metadata store. -/
def chunkCount (st : Store) (doc : Nat) : Nat :=
  (st.chunks.filter fun c => c.doc = doc).length

/-! ## SearchService and AnswerComposer (backend components, absent
from the source tree) -/

/-- Modelled from the spec: SearchService hydration (section 4.7),
absent from the source tree. Embeds the query, runs the ANN lookup and
hydrates each surviving hit into its snippet text via the
chunk-id-to-snippet mapping. -/
def searchService (embed : String → List Int) (snips : Nat → String)
    (idx : List IndexEntry) (q : String) (topK : Nat) : List String :=
  (indexSearch idx (embed q) topK).map fun hit => snips hit.1

/-- Response body of `POST /api/ask`. -/
structure AskResponse where
  answer : String
  contexts : List String
deriving DecidableEq, Repr

/-- Modelled from the spec: the AnswerComposer on a missing generation
credential (section 4.8), absent from the source tree. The request does
not fail: it returns a structured response whose answer signals
"not configured" (the literal prefix the client sniffs) and whose
contexts list carries the raw ranked contexts from SearchService. A
present credential is outside this model (it would invoke the remote
generation provider). -/
def askCore (embed : String → List Int) (snips : Nat → String)
    (idx : List IndexEntry) (q : String) (topK : Nat) : AskResponse :=
  { answer := "LLM not configured"
    contexts := searchService embed snips idx q topK }

/-- Parsed body of an `/api/ask` response as the client reads it; both
fields may be absent. -/
structure AskData where
  answer : Option String
  contexts : Option (List String)
deriving DecidableEq, Repr

/-- The label-by-rank rendering of the contexts in `askAI()`
(routes/+page.svelte): `(data.contexts || []).map((c,i)=>...[i+1] c...)
.join(...)`. -/
def renderContexts (ctxs : List String) : String :=
  String.intercalate "\n\n---\n\n"
    (ctxs.enum.map fun p => "[" ++ toString (p.1 + 1) ++ "] " ++ p.2)

/-- The assistant-bubble text computed by `askAI()` from the response:
startsWith-sniffing on the answer selects the rank-labeled context
rendering, otherwise the answer itself (empty string fallback). -/
def clientAskText (d : AskData) : String :=
  match d.answer with
  | none => ""
  | some a =>
      if strStartsWith a "LLM not configured" then
        "LLM not configured. Here are the top contexts:\n\n" ++
          renderContexts (d.contexts.getD [])
      else a

/-! ## JSON round-trip model (frontend/src/lib/stores/chat.ts)

`persisted(key, initial)` reads `localStorage.getItem(key)`, JSON-parses
it when present and truthy, and writes `JSON.stringify(val)` back on
every store change. The values persisted by chat.ts (message arrays,
persona string, draft string) consist of strings, arrays and objects
only, so the JSON value model below covers exactly those shapes. -/

inductive Json where
  | str : String → Json
  | arr : List Json → Json
  | obj : List (String × Json) → Json

/-- Opening brace character. -/
def jLB : Char := Char.ofNat 123

/-- Closing brace character. -/
def jRB : Char := Char.ofNat 125

/-- Lowercase hexadecimal digit for `n < 16` (JSON.stringify emits
lowercase hex in control-character escapes). -/
def hexDigitL (n : Nat) : Char :=
  if n < 10 then Char.ofNat (48 + n) else Char.ofNat (87 + n)

/-- The escape `JSON.stringify` applies to one character of a string:
quote and backslash get two-character escapes, the five named control
characters their short forms, remaining C0 controls a `\u00xx` escape,
everything else stands for itself. -/
def escapeChar (c : Char) : List Char :=
  if c = '"' then ['\\', '"']
  else if c = '\\' then ['\\', '\\']
  else if 32 ≤ c.toNat then [c]
  else if c = Char.ofNat 8 then ['\\', 'b']
  else if c = Char.ofNat 9 then ['\\', 't']
  else if c = Char.ofNat 10 then ['\\', 'n']
  else if c = Char.ofNat 12 then ['\\', 'f']
  else if c = Char.ofNat 13 then ['\\', 'r']
  else ['\\', 'u', '0', '0', hexDigitL (c.toNat / 16), hexDigitL (c.toNat % 16)]

/-- A JSON string literal: quote, escaped content, quote. -/
def quoteChars (s : String) : List Char :=
  '"' :: (s.data.flatMap escapeChar ++ ['"'])

/-- Comma-join pre-rendered items. -/
def joinComma : List (List Char) → List Char
  | [] => []
  | [x] => x
  | x :: y :: xs => x ++ ',' :: joinComma (y :: xs)

mutual

/-- Character stream `JSON.stringify` produces for a value (strings,
arrays and objects; no indentation argument). -/
def jChars : Json → List Char
  | .str s => quoteChars s
  | .arr xs => '[' :: (joinComma (jCharsArr xs) ++ [']'])
  | .obj kvs => jLB :: (joinComma (jCharsObj kvs) ++ [jRB])

/-- Renderings of array elements. -/
def jCharsArr : List Json → List (List Char)
  | [] => []
  | x :: xs => jChars x :: jCharsArr xs

/-- Renderings of object members (`"key":value`). -/
def jCharsObj : List (String × Json) → List (List Char)
  | [] => []
  | kv :: kvs => (quoteChars kv.1 ++ ':' :: jChars kv.2) :: jCharsObj kvs

end

/-- Model of `JSON.stringify` on the persisted value shapes. -/
def stringifyJson (v : Json) : String :=
  String.mk (jChars v)

/-- Value of one hexadecimal digit, either case. -/
def hexVal (c : Char) : Option Nat :=
  if '0' ≤ c ∧ c ≤ '9' then some (c.toNat - 48)
  else if 'a' ≤ c ∧ c ≤ 'f' then some (c.toNat - 87)
  else if 'A' ≤ c ∧ c ≤ 'F' then some (c.toNat - 55)
  else none

/-- The short escapes `JSON.parse` accepts after a backslash (besides
`\u`). -/
def unescapeChar (c : Char) : Option Char :=
  if c = '"' then some '"'
  else if c = '\\' then some '\\'
  else if c = '/' then some '/'
  else if c = 'b' then some (Char.ofNat 8)
  else if c = 't' then some (Char.ofNat 9)
  else if c = 'n' then some (Char.ofNat 10)
  else if c = 'f' then some (Char.ofNat 12)
  else if c = 'r' then some (Char.ofNat 13)
  else none

/-- String-body recognizer of the `JSON.parse` model: consumes up to an
unescaped closing quote, rejecting raw control characters and malformed
escapes; `\uXXXX` decodes to the scalar value when it is one (surrogate
pairing is not needed for round-trips of well-formed strings). Returns
the decoded content and the remaining input. -/
def parseStringBody : List Char → Option (List Char × List Char)
  | [] => none
  | c :: rest =>
    if c = '"' then some ([], rest)
    else if c = '\\' then
      match rest with
      | [] => none
      | e :: rest2 =>
        if e = 'u' then
          match rest2 with
          | h1 :: h2 :: h3 :: h4 :: rest3 =>
            match hexVal h1, hexVal h2, hexVal h3, hexVal h4 with
            | some a, some b, some c3, some d =>
              let n := ((a * 16 + b) * 16 + c3) * 16 + d
              if n < 55296 ∨ (57343 < n ∧ n < 1114112) then
                match parseStringBody rest3 with
                | some (s, r) => some (Char.ofNat n :: s, r)
                | none => none
              else none
            | _, _, _, _ => none
          | _ => none
        else
          match unescapeChar e with
          | some u =>
            match parseStringBody rest2 with
            | some (s, r) => some (u :: s, r)
            | none => none
          | none => none
    else if c.toNat < 32 then none
    else
      match parseStringBody rest with
      | some (s, r) => some (c :: s, r)
      | none => none

mutual

/-- Value recognizer of the `JSON.parse` model on the grammar
`JSON.stringify` emits (strings, arrays, objects, no whitespace).
`fuel` bounds nesting; adequacy for stringified output is proved
below. -/
def parseVal : Nat → List Char → Option (Json × List Char)
  | 0, _ => none
  | f + 1, input =>
    match input with
    | [] => none
    | c :: rest =>
      if c = '"' then
        match parseStringBody rest with
        | some (s, r) => some (.str (String.mk s), r)
        | none => none
      else if c = '[' then
        match rest with
        | [] => none
        | d :: r =>
          if d = ']' then some (.arr [], r)
          else
            match parseElems f rest with
            | some (vs, r2) => some (.arr vs, r2)
            | none => none
      else if c = jLB then
        match rest with
        | [] => none
        | d :: r =>
          if d = jRB then some (.obj [], r)
          else
            match parseMembers f rest with
            | some (kvs, r2) => some (.obj kvs, r2)
            | none => none
      else none

/-- Non-empty `value (, value)* ]` sequence. -/
def parseElems : Nat → List Char → Option (List Json × List Char)
  | 0, _ => none
  | f + 1, input =>
    match parseVal f input with
    | some (v, rest) =>
      match rest with
      | [] => none
      | d :: rest2 =>
        if d = ',' then
          match parseElems f rest2 with
          | some (vs, r) => some (v :: vs, r)
          | none => none
        else if d = ']' then some ([v], rest2)
        else none
    | none => none

/-- Non-empty `"key":value (, "key":value)* FINALBRACE` sequence. -/
def parseMembers : Nat → List Char → Option (List (String × Json) × List Char)
  | 0, _ => none
  | f + 1, input =>
    match input with
    | [] => none
    | c :: rest =>
      if c = '"' then
        match parseStringBody rest with
        | some (k, rest2) =>
          match rest2 with
          | [] => none
          | d :: rest3 =>
            if d = ':' then
              match parseVal f rest3 with
              | some (v, rest4) =>
                match rest4 with
                | [] => none
                | d2 :: rest5 =>
                  if d2 = ',' then
                    match parseMembers f rest5 with
                    | some (kvs, r) => some ((String.mk k, v) :: kvs, r)
                    | none => none
                  else if d2 = jRB then some ([(String.mk k, v)], rest5)
                  else none
              | none => none
            else none
        | none => none
      else none

end

/-- Model of `JSON.parse`: the whole input must be one value. -/
def parseJson (s : String) : Option Json :=
  match parseVal (s.length + 1) s.data with
  | some (v, []) => some v
  | _ => none

/-- The initial-value computation of `persisted(key, initial)` in
chat.ts: `localStorage.getItem(key)`, kept only when truthy
(non-empty) and successfully JSON-parsed, otherwise the provided
initial value (the catch block swallows parse errors). -/
def persistedStart (store : String → Option String) (key : String)
    (initial : Json) : Json :=
  match store key with
  | none => initial
  | some raw => if raw = "" then initial else (parseJson raw).getD initial

/-- The subscriber of `persisted`: every store change writes
`JSON.stringify(val)` under the key, so a session ends with the last
value's serialization in localStorage. -/
def sessionWrite (store : String → Option String) (key : String)
    (v : Json) : String → Option String :=
  fun k => if k = key then some (stringifyJson v) else store k

/-- JS string of a message role. -/
def roleStr : Role → String
  | .user => "user"
  | .assistant => "assistant"

/-- The JSON value of a `ChatMessage[]` as chat.ts stores it. -/
def encodeMessages (msgs : List ChatMessage) : Json :=
  .arr (msgs.map fun m =>
    .obj [("role", .str (roleStr m.role)), ("content", .str m.content)])

/-- Reads a `ChatMessage[]` back out of a JSON value (used to state
that `encodeMessages` loses nothing). -/
def decodeMessage : Json → Option ChatMessage
  | .obj [("role", .str r), ("content", .str c)] =>
      if r = "user" then some ⟨.user, c⟩
      else if r = "assistant" then some ⟨.assistant, c⟩
      else none
  | _ => none

/-- List-level inverse of `encodeMessages`. -/
def decodeMessages : Json → Option (List ChatMessage)
  | .arr xs => xs.mapM decodeMessage
  | _ => none

/-! # Theorems -/

/-! ## Shared helper lemmas -/

lemma takeLast_length_le (n : Nat) (l : List α) : (takeLast n l).length ≤ n := by
  simp [takeLast]
  omega

lemma takeLast_sublist (n : Nat) (l : List α) : (takeLast n l).Sublist l :=
  List.drop_sublist _ _

lemma filter_not_eq_eraseP (p : α → Bool) :
    ∀ l : List α, l.countP p ≤ 1 → l.filter (fun a => !p a) = l.eraseP p := by
  intro l
  induction l with
  | nil => intro _; rfl
  | cons a l ih =>
    intro h
    rw [List.countP_cons] at h
    by_cases hp : p a = true
    · rw [if_pos hp] at h
      have h0 : l.countP p = 0 := by omega
      have hall : l.filter (fun x => !p x) = l :=
        List.filter_eq_self.mpr fun x hx => by
          simp [List.countP_eq_zero.mp h0 x hx]
      simp [List.filter_cons, List.eraseP_cons, hp, hall]
    · rw [if_neg hp] at h
      have hp' : p a = false := by
        revert hp; cases p a <;> simp
      simp [List.filter_cons, List.eraseP_cons, hp', ih (by omega)]

lemma chunkGo_eq_nil (step size n start fuel : Nat) (h : ¬ start < n) :
    chunkGo step size n start fuel = [] := by
  cases fuel with
  | zero => rfl
  | succ f => rw [chunkGo, if_neg h]

lemma chunkGo_head (step size n start : Nat) :
    ∀ fuel, 0 < fuel → start < n →
      ∃ t, chunkGo step size n start fuel = start :: t := by
  intro fuel hf hs
  cases fuel with
  | zero => omega
  | succ f => exact ⟨_, by rw [chunkGo, if_pos hs]⟩

lemma chunkGo_chain (step size n : Nat) :
    ∀ fuel start, List.Chain' (fun a b => b = a + step)
      (chunkGo step size n start fuel) := by
  intro fuel
  induction fuel with
  | zero => intro start; exact List.chain'_nil
  | succ f ih =>
    intro start
    rw [chunkGo]
    by_cases hs : start < n
    · rw [if_pos hs]
      by_cases he : n ≤ start + size
      · rw [if_pos he]; exact List.chain'_singleton _
      · rw [if_neg he]
        rcases Nat.eq_zero_or_pos f with hf | hf
        · subst hf; exact List.chain'_singleton _
        · by_cases hs2 : start + step < n
          · obtain ⟨t, ht⟩ := chunkGo_head step size n (start + step) f hf hs2
            rw [ht, List.chain'_cons]
            exact ⟨rfl, ht ▸ ih (start + step)⟩
          · rw [chunkGo_eq_nil step size n (start + step) f hs2]
            exact List.chain'_singleton _
    · rw [if_neg hs]; exact List.chain'_nil

lemma enum_pairwise_fst (l : List α) :
    List.Pairwise (fun a b : Nat × α => a.1 < b.1) l.enum := by
  have h : List.Pairwise (· < ·) (l.enum.map Prod.fst) := by
    rw [List.enum_map_fst]
    exact List.pairwise_lt_range _
  exact (List.pairwise_map.mp h)

lemma liveScored_pairwise (idx : List IndexEntry) (q : List Int) :
    List.Pairwise (fun a b : Nat × Int => a.1 < b.1) (liveScored idx q) := by
  unfold liveScored
  refine List.Pairwise.map _ (fun a b hab => hab) ?_
  exact (enum_pairwise_fst idx).filter _

set_option maxRecDepth 8000

/-- C3: the chunker slides a window of size `S` advancing by `S − O`
per page (consecutive emitted offsets differ by exactly `S − O`) and
emits the final partial window even when shorter than `S`; for size
800 and overlap 120 on a 2000-character page it emits exactly the
windows at offsets 0, 680 and 1360, of lengths 800, 800 and 640, the
last shorter than 800. -/
theorem chunker_windows :
    (∀ S O n, List.Chain' (fun a b => b = a + (S - O)) (chunkOffsets S O n)) ∧
    chunkOffsets 800 120 2000 = [0, 680, 1360] ∧
    (∀ page : List Char, page.length = 2000 →
      (chunkTexts 800 120 page).map List.length = [800, 800, 640]) ∧
    (640 : Nat) < 800 := by
  refine ⟨fun S O n => chunkGo_chain (S - O) S n (n + 1) 0, by decide,
    fun page hp => ?_, by decide⟩
  unfold chunkTexts
  rw [hp, show chunkOffsets 800 120 2000 = [0, 680, 1360] from by decide]
  simp only [List.map_cons, List.map_nil, List.length_take, List.length_drop, hp]
  norm_num

/-- Witness for C3's page-length clause at a concrete 2000-character
page. -/
theorem chunker_windows_witness :
    (chunkTexts 800 120 (List.replicate 2000 'a')).map List.length =
      [800, 800, 640] :=
  chunker_windows.2.2.1 (List.replicate 2000 'a') (by simp)

/-- C5: every ask request the client sends carries the body
`{question, top_k, personality, history}` where `personality` is the
ordered instruction list of the selected persona and `history` is the
last at most 12 prior turns captured before the current user question
is appended, so the freshly appended user turn (at position
`msgs.length` of the post-send message list) is never part of the
history, which is drawn entirely from the prior list. -/
theorem askRequest_shape (input : String) (msgs : List ChatMessage) (p : Persona)
    (req : AskRequest) (msgs' : List ChatMessage)
    (h : askAI input msgs p = some (req, msgs')) :
    req.question = jsTrim input ∧ req.top_k = 8 ∧
    req.personality = personalities p ∧
    req.history = takeLast 12 msgs ∧
    req.history.length ≤ 12 ∧
    req.history.Sublist msgs ∧
    msgs' = msgs ++ [⟨Role.user, jsTrim input⟩] := by
  by_cases he : jsTrim input = ""
  · simp [askAI, he] at h
  · simp only [askAI] at h
    rw [if_neg he, Option.some.injEq] at h
    obtain ⟨h1, h2⟩ := Prod.ext_iff.mp h
    subst h1 h2
    exact ⟨rfl, rfl, rfl, rfl, takeLast_length_le 12 msgs,
      takeLast_sublist 12 msgs, rfl⟩

/-- Witness for C5 at a concrete input and message list. -/
theorem askRequest_shape_witness :
    askAI "  hi  " [⟨Role.assistant, "prev"⟩] Persona.teacher =
      some ({ question := "hi", top_k := 8,
              personality := personalities Persona.teacher,
              history := [⟨Role.assistant, "prev"⟩] },
            [⟨Role.assistant, "prev"⟩, ⟨Role.user, "hi"⟩]) ∧
    ("hi" : String) = jsTrim "  hi  " :=
  ⟨by decide, ((askRequest_shape "  hi  " [⟨Role.assistant, "prev"⟩]
      Persona.teacher
      { question := "hi", top_k := 8,
        personality := personalities Persona.teacher,
        history := [⟨Role.assistant, "prev"⟩] }
      [⟨Role.assistant, "prev"⟩, ⟨Role.user, "hi"⟩]
      (by decide)).1).symm⟩

/-- C6 counterexample: the upload request the client issues targets
`/api/upload`, not the `/upload` path section 6 lists. -/
theorem clientUploadPath_ne_spec6 : clientUploadPath ≠ spec6UploadPath := by
  decide

/-- C6 amended: every client request path equals the section-6 path
prefixed with `/api`: uploads are multipart POST to `/api/upload` and
searches GET to `/api/search` with URL-encoded query parameters `q` and
`top_k`. -/
theorem clientPaths_eq_api_prefixed_spec6 :
    clientUploadPath = "/api" ++ spec6UploadPath ∧
    clientUploadMethod = "POST" ∧
    ∀ q, clientSearchPath q = "/api" ++ spec6SearchPath q 8 := by
  refine ⟨by decide, rfl, fun q => ?_⟩
  show "/api/search?q=" ++ encodeURIComponent q ++ "&top_k=8" =
    "/api" ++ ("/search?q=" ++ encodeURIComponent q ++ "&top_k=" ++ toString (8 : Nat))
  have h8 : (toString (8 : Nat) : String) = "8" := rfl
  rw [h8]
  apply String.ext
  simp only [String.data_append, List.append_assoc]
  rw [← List.append_assoc "/api".data "/search?q=".data,
    show "/api".data ++ "/search?q=".data = "/api/search?q=".data from by decide,
    show "&top_k=".data ++ "8".data = "&top_k=8".data from by decide]

/-- C7: the `removeDoc` transition on the client document list. When
the DELETE response parses with `ok: true` and the list holds exactly
one row with the clicked id, the new list is exactly the old one with
that row removed (every other row unchanged, in order); a response
without `ok: true`, a thrown request, or a declined confirm dialog
leaves the list untouched. -/
theorem removeDoc_frame (id : String) (docs : List DocItem) :
    (docs.countP (fun d => decide (d.id = id)) = 1 →
      removeDoc true (some ⟨some true⟩) id docs =
        docs.eraseP (fun d => decide (d.id = id))) ∧
    (∀ r : DeleteResp, r.ok.getD false = false →
      removeDoc true (some r) id docs = docs) ∧
    removeDoc true none id docs = docs ∧
    (∀ resp, removeDoc false resp id docs = docs) := by
  refine ⟨fun h1 => ?_, fun r hr => ?_, rfl, fun resp => ?_⟩
  · show docs.filter (fun d => decide (d.id ≠ id)) = _
    have : (fun d : DocItem => decide (d.id ≠ id)) =
        fun d : DocItem => !decide (d.id = id) := by
      funext d; simp
    rw [this]
    exact filter_not_eq_eraseP _ docs (le_of_eq h1)
  · simp [removeDoc, hr]
  · simp [removeDoc]

/-- Witness for C7 on a concrete two-row list. -/
theorem removeDoc_frame_witness :
    removeDoc true (some ⟨some true⟩) "a" [⟨"a", "f1"⟩, ⟨"b", "f2"⟩] =
        [⟨"b", "f2"⟩] ∧
    removeDoc true (some ⟨some false⟩) "a" [⟨"a", "f1"⟩, ⟨"b", "f2"⟩] =
        [⟨"a", "f1"⟩, ⟨"b", "f2"⟩] := by
  constructor
  · rw [(removeDoc_frame "a" [⟨"a", "f1"⟩, ⟨"b", "f2"⟩]).1 (by decide)]
    decide
  · exact (removeDoc_frame "a" [⟨"a", "f1"⟩, ⟨"b", "f2"⟩]).2.1 ⟨some false⟩ rfl

/-- C8 counterexample: with `VITE_API_BASE` undefined the two `api`
implementations fetch different URLs for the same path — the unnamed
module variant targets `http://localhost:8000/api/ask`, lib/api.ts the
relative `/api/ask`. -/
theorem api_impls_differ : apiUrlUnnamed none "/api/ask" ≠ apiUrlLib none "/api/ask" := by
  decide

/-- C8 amended: `apiUrl(p)` always equals the URL lib/api.ts's `api(p)`
fetches, and the two `api` implementations request the same URL exactly
when `VITE_API_BASE` is set non-empty; when it is undefined (or empty)
the unnamed variant falls back to `http://localhost:8000` while
lib/api.ts issues a same-origin relative request. -/
theorem api_impls_agree_iff_base_set :
    (∀ env p, apiUrlFn env p = apiUrlLib env p) ∧
    (∀ b p, b ≠ "" → apiUrlUnnamed (some b) p = apiUrlLib (some b) p) ∧
    (∀ p, apiUrlUnnamed none p = "http://localhost:8000" ++ p ∧
      apiUrlLib none p = p) := by
  refine ⟨fun env p => rfl, fun b p hb => ?_, fun p => ⟨rfl, ?_⟩⟩
  · simp [apiUrlUnnamed, apiUrlLib, jsOr, hb]
  · show "" ++ p = p
    simp

/-- Witness for C8's amended statement at a concrete base and path. -/
theorem api_impls_agree_witness :
    apiUrlUnnamed (some "http://h:9") "/api/ask" =
      apiUrlLib (some "http://h:9") "/api/ask" :=
  api_impls_agree_iff_base_set.2.1 "http://h:9" "/api/ask" (by decide)

/-- C10: `doSearch` is atomic on error and total. On a thrown fetch or
JSON parse, the results list keeps its previous value and only the note
becomes "Search failed."; on a successful response the results become
the response's `results` field, or `[]` when that field is absent, with
the note taken from the response; no exception escapes (the transition
is a total function). -/
theorem doSearch_atomic (input : String) (results : List SearchHit)
    (note : Option String) (hq : jsTrim input ≠ "") :
    doSearch input (.error ()) results note = (results, some "Search failed.") ∧
    (∀ d : SearchData, d.results = none →
      doSearch input (.ok d) results note = ([], jsOrNull d.note)) ∧
    (∀ d : SearchData, ∀ l, d.results = some l →
      doSearch input (.ok d) results note = (l, jsOrNull d.note)) := by
  refine ⟨?_, fun d hd => ?_, fun d l hd => ?_⟩
  · simp [doSearch, hq]
  · simp [doSearch, hq, hd]
  · simp [doSearch, hq, hd]

/-- Witness for C10 at a concrete query and state. -/
theorem doSearch_atomic_witness :
    doSearch "q" (.error ()) [⟨3, "d", 1, "s"⟩] none =
      ([⟨3, "d", 1, "s"⟩], some "Search failed.") :=
  (doSearch_atomic "q" [⟨3, "d", 1, "s"⟩] none (by decide)).1

/-- C2: `search(q, k)` on the vector index returns at most `k` results
— exactly `min k` (live entry count), so it is never padded when fewer
live matches exist — ordered by score strictly descending with ties
broken by insertion order (earlier internal id wins, making the order
pairwise-strict), and every result is a non-tombstoned entry scored
against the query. -/
theorem indexSearch_spec (idx : List IndexEntry) (q : List Int) (k : Nat) :
    (indexSearch idx q k).length = min k (liveScored idx q).length ∧
    List.Pairwise (fun a b : Nat × Int => b.2 < a.2 ∨ (a.2 = b.2 ∧ a.1 < b.1))
      (indexSearch idx q k) ∧
    ∀ p ∈ indexSearch idx q k, ∃ e, idx[p.1]? = some e ∧
      e.tomb = false ∧ p.2 = dot q e.vec := by
  have hperm := List.perm_insertionSort rankLe (liveScored idx q)
  refine ⟨?_, ?_, ?_⟩
  · rw [indexSearch, List.length_take, hperm.length_eq]
  · have hsorted : List.Sorted rankLe
        (List.insertionSort rankLe (liveScored idx q)) :=
      List.sorted_insertionSort rankLe _
    have hne : List.Pairwise (fun a b : Nat × Int => a.1 ≠ b.1)
        (List.insertionSort rankLe (liveScored idx q)) := by
      have h1 : List.Pairwise (fun a b : Nat × Int => a.1 ≠ b.1)
          (liveScored idx q) :=
        (liveScored_pairwise idx q).imp fun h => Nat.ne_of_lt h
      exact (hperm.pairwise_iff fun h => h.symm).mpr h1
    have hstrict : List.Pairwise
        (fun a b : Nat × Int => b.2 < a.2 ∨ (a.2 = b.2 ∧ a.1 < b.1))
        (List.insertionSort rankLe (liveScored idx q)) := by
      refine (hsorted.and hne).imp ?_
      rintro a b ⟨h | ⟨heq, hle⟩, hne'⟩
      · exact Or.inl h
      · exact Or.inr ⟨heq, lt_of_le_of_ne hle hne'⟩
    exact hstrict.sublist (List.take_sublist k _)
  · intro p hp
    have hp2 : p ∈ liveScored idx q :=
      hperm.mem_iff.mp ((List.take_sublist k _).subset hp)
    unfold liveScored at hp2
    obtain ⟨a, ha, hpa⟩ := List.mem_map.mp hp2
    obtain ⟨haen, hat⟩ := List.mem_filter.mp ha
    subst hpa
    exact ⟨a.2, List.mem_enum_iff_getElem?.mp haen, by simpa using hat, rfl⟩

/-- Witness for C2's membership clause at a concrete index with one
live and one tombstoned entry. -/
theorem indexSearch_spec_witness :
    (0, (3 : Int)) ∈ indexSearch [⟨[1], false⟩, ⟨[2], true⟩] [3] 2 ∧
    ∃ e, ([⟨[1], false⟩, ⟨[2], true⟩] : List IndexEntry)[(0 : Nat)]? = some e ∧
      e.tomb = false ∧ (3 : Int) = dot [3] e.vec :=
  ⟨by decide, (indexSearch_spec [⟨[1], false⟩, ⟨[2], true⟩] [3] 2).2.2
    (0, 3) (by decide)⟩

lemma docChunks_mem (S O doc : Nat) (pages : List (List Char)) :
    ∀ c ∈ docChunks S O doc pages,
      c.doc = doc ∧ 1 ≤ c.page ∧ c.page ≤ pages.length := by
  intro c hc
  unfold docChunks at hc
  obtain ⟨s, hs, rfl⟩ := List.mem_map.mp hc
  refine ⟨rfl, ?_⟩
  have hs2 : s.2 ∈ pages.enum.flatMap fun p =>
      if p.2.isEmpty then []
      else (chunkTexts S O p.2).map fun t => (p.1 + 1, t) := by
    have h := List.mem_enum_iff_getElem?.mp hs
    exact List.getElem?_mem h
  obtain ⟨p, hpmem, hpin⟩ := List.mem_flatMap.mp hs2
  by_cases hemp : p.2.isEmpty = true
  · rw [if_pos hemp] at hpin; cases hpin
  · rw [if_neg hemp] at hpin
    obtain ⟨t, _, hpt⟩ := List.mem_map.mp hpin
    have hplt : p.1 < pages.length := by
      have h := List.mem_enum_iff_getElem?.mp hpmem
      exact (List.getElem?_eq_some.mp h).1
    have hfst : s.2.1 = p.1 + 1 := by rw [← hpt]
    show 1 ≤ s.2.1 ∧ s.2.1 ≤ pages.length
    omega

/-- C4: a successful ingestion of a document with a fresh id commits at
least one chunk (empty extraction already failed the pipeline), records
the page count, and gives every chunk of the document a page number in
`[1, pages]`; deleting the document afterwards leaves no chunk
referencing it in the metadata store and no live (non-tombstoned)
vector referencing it in the index. -/
theorem ingest_invariants (S O : Nat) (st : Store) (doc : Nat)
    (pages : List (List Char)) (st' : Store)
    (hin : ingest S O st doc pages = some st')
    (hfresh : ∀ c ∈ st.chunks, c.doc ≠ doc) :
    1 ≤ chunkCount st' doc ∧
    (doc, pages.length) ∈ st'.docs ∧
    (∀ c ∈ st'.chunks, c.doc = doc → 1 ≤ c.page ∧ c.page ≤ pages.length) ∧
    (∀ c ∈ (deleteDoc st' doc).chunks, c.doc ≠ doc) ∧
    (∀ v ∈ (deleteDoc st' doc).vecs, v.doc = doc → v.tomb = true) := by
  unfold ingest at hin
  by_cases h1 : pages.isEmpty = true
  · rw [if_pos h1] at hin; cases hin
  · rw [if_neg h1] at hin
    by_cases h2 : (docChunks S O doc pages).isEmpty = true
    · rw [if_pos h2] at hin; cases hin
    · rw [if_neg h2] at hin
      obtain rfl := (Option.some.injEq _ _ ▸ hin).symm
      have hcs : docChunks S O doc pages ≠ [] := by
        simpa [List.isEmpty_iff] using h2
      refine ⟨?_, ?_, ?_, ?_, ?_⟩
      · obtain ⟨c0, hc0⟩ := List.exists_mem_of_ne_nil _ hcs
        have hc0' : c0 ∈ st.chunks ++ docChunks S O doc pages :=
          List.mem_append_right _ hc0
        have hdoc := (docChunks_mem S O doc pages c0 hc0).1
        exact List.length_pos.mpr (List.ne_nil_of_mem
          (List.mem_filter.mpr ⟨hc0', by simp [hdoc]⟩))
      · exact List.mem_append_right _ (by simp)
      · intro c hc hcd
        rcases List.mem_append.mp hc with hl | hr
        · exact absurd hcd (hfresh c hl)
        · exact (docChunks_mem S O doc pages c hr).2
      · intro c hc
        have := (List.mem_filter.mp hc).2
        simpa using this
      · intro v hv hvd
        obtain ⟨w, _, rfl⟩ := List.mem_map.mp hv
        by_cases hw : w.doc = doc
        · simp [hw]
        · rw [if_neg hw] at hvd ⊢
          exact absurd hvd hw

/-- Concrete post-ingestion store for the C4 witness: one document of
one four-character page, chunked with size 3 and overlap 1. -/
def ingestedStore : Store :=
  { docs := [(7, 1)]
    chunks := [⟨7, 0, 1, ['a', 'b', 'c']⟩, ⟨7, 1, 1, ['c', 'd']⟩]
    vecs := [⟨7, false⟩, ⟨7, false⟩] }

/-- Witness for C4 at a concrete one-page document. -/
theorem ingest_invariants_witness :
    1 ≤ chunkCount ingestedStore 7 ∧
    ((7 : Nat), (1 : Nat)) ∈ ingestedStore.docs :=
  have h := ingest_invariants 3 1 ⟨[], [], []⟩ 7 [['a', 'b', 'c', 'd']]
    ingestedStore (by decide) (by simp)
  ⟨h.1, h.2.1⟩

/-- C1: with no generation credential, an ask request does not fail —
the response's answer signals "not configured" (detected by the client
via its `LLM not configured` prefix), the contexts list equals the raw
ranked contexts of the search and is non-empty whenever search returns
at least one result, and the client renders those contexts labeled by
rank. -/
theorem ask_unconfigured (embed : String → List Int) (snips : Nat → String)
    (idx : List IndexEntry) (q : String) (k : Nat)
    (h : searchService embed snips idx q k ≠ []) :
    strStartsWith (askCore embed snips idx q k).answer "LLM not configured" = true ∧
    (askCore embed snips idx q k).contexts = searchService embed snips idx q k ∧
    (askCore embed snips idx q k).contexts ≠ [] ∧
    clientAskText ⟨some (askCore embed snips idx q k).answer,
        some (askCore embed snips idx q k).contexts⟩ =
      "LLM not configured. Here are the top contexts:\n\n" ++
        renderContexts (searchService embed snips idx q k) := by
  have hpfx : strStartsWith "LLM not configured" "LLM not configured" = true := by
    decide
  refine ⟨hpfx, rfl, h, ?_⟩
  simp only [clientAskText, askCore, hpfx, if_true, Option.getD_some]

/-- Witness for C1 at a concrete one-entry index. -/
theorem ask_unconfigured_witness :
    searchService (fun _ => [1]) (fun _ => "ctx") [⟨[2], false⟩] "x" 3 ≠ [] ∧
    (askCore (fun _ => [1]) (fun _ => "ctx") [⟨[2], false⟩] "x" 3).contexts ≠ [] :=
  ⟨by decide, (ask_unconfigured (fun _ => [1]) (fun _ => "ctx")
    [⟨[2], false⟩] "x" 3 (by decide)).2.2.1⟩

lemma hexVal_hexDigitL (n : Nat) (h : n < 16) : hexVal (hexDigitL n) = some n := by
  interval_cases n <;> decide

lemma escape_step (c : Char) (tail s r : List Char)
    (ih : parseStringBody tail = some (s, r)) :
    parseStringBody (escapeChar c ++ tail) = some (c :: s, r) := by
  by_cases h1 : c = '"'
  · subst h1
    rw [show escapeChar '"' = ['\\', '"'] from by decide, parseStringBody.eq_def]
    simp [unescapeChar, ih]
  by_cases h2 : c = '\\'
  · subst h2
    rw [show escapeChar '\\' = ['\\', '\\'] from by decide, parseStringBody.eq_def]
    simp [unescapeChar, ih]
  by_cases h3 : 32 ≤ c.toNat
  · rw [show escapeChar c = [c] from by simp [escapeChar, h1, h2, h3],
      parseStringBody.eq_def]
    simp [h1, h2, ih, Nat.not_lt.mpr h3]
  by_cases hb : c = Char.ofNat 8
  · subst hb
    rw [show escapeChar (Char.ofNat 8) = ['\\', 'b'] from by decide,
      parseStringBody.eq_def]
    simp [unescapeChar, ih]
  by_cases ht : c = Char.ofNat 9
  · subst ht
    rw [show escapeChar (Char.ofNat 9) = ['\\', 't'] from by decide,
      parseStringBody.eq_def]
    simp [unescapeChar, ih]
  by_cases hn : c = Char.ofNat 10
  · subst hn
    rw [show escapeChar (Char.ofNat 10) = ['\\', 'n'] from by decide,
      parseStringBody.eq_def]
    simp [unescapeChar, ih]
  by_cases hf : c = Char.ofNat 12
  · subst hf
    rw [show escapeChar (Char.ofNat 12) = ['\\', 'f'] from by decide,
      parseStringBody.eq_def]
    simp [unescapeChar, ih]
  by_cases hr : c = Char.ofNat 13
  · subst hr
    rw [show escapeChar (Char.ofNat 13) = ['\\', 'r'] from by decide,
      parseStringBody.eq_def]
    simp [unescapeChar, ih]
  · rw [show escapeChar c = ['\\', 'u', '0', '0', hexDigitL (c.toNat / 16),
        hexDigitL (c.toNat % 16)] from by
      simp [escapeChar, h1, h2, h3, hb, ht, hn, hf, hr]]
    rw [parseStringBody.eq_def]
    simp only [List.cons_append, List.nil_append]
    simp only [if_neg (by decide : ¬ ('\\' : Char) = '"'), if_pos rfl, if_true]
    rw [hexVal_hexDigitL _ (by omega), hexVal_hexDigitL _ (by omega),
      show hexVal '0' = some 0 from by decide]
    simp only []
    rw [show ((0 * 16 + 0) * 16 + c.toNat / 16) * 16 + c.toNat % 16 = c.toNat from by
      omega]
    rw [if_pos (Or.inl (by omega))]
    rw [ih, Char.ofNat_toNat]

lemma parseStringBody_quote (s rest : List Char) :
    parseStringBody (s.flatMap escapeChar ++ '"' :: rest) = some (s, rest) := by
  induction s with
  | nil =>
    rw [List.flatMap_nil, List.nil_append, parseStringBody.eq_def]
    simp
  | cons c cs ih =>
    rw [show (c :: cs).flatMap escapeChar ++ '"' :: rest =
      escapeChar c ++ (cs.flatMap escapeChar ++ '"' :: rest) from by
        simp [List.flatMap_cons, List.append_assoc]]
    exact escape_step c _ cs rest ih

lemma parseVal_quote (f : Nat) (rest : List Char) :
    parseVal (f + 1) ('"' :: rest) =
      match parseStringBody rest with
      | some (s, r) => some (.str (String.mk s), r)
      | none => none := rfl

lemma parseVal_arr (f : Nat) (d : Char) (r : List Char) :
    parseVal (f + 1) ('[' :: d :: r) =
      if d = ']' then some (.arr [], r)
      else
        match parseElems f (d :: r) with
        | some (vs, r2) => some (.arr vs, r2)
        | none => none := rfl

lemma parseVal_obj (f : Nat) (d : Char) (r : List Char) :
    parseVal (f + 1) (jLB :: d :: r) =
      if d = jRB then some (.obj [], r)
      else
        match parseMembers f (d :: r) with
        | some (kvs, r2) => some (.obj kvs, r2)
        | none => none := rfl

lemma parseElems_succ (f : Nat) (input : List Char) :
    parseElems (f + 1) input =
      match parseVal f input with
      | some (v, rest) =>
        match rest with
        | [] => none
        | d :: rest2 =>
          if d = ',' then
            match parseElems f rest2 with
            | some (vs, r) => some (v :: vs, r)
            | none => none
          else if d = ']' then some ([v], rest2)
          else none
      | none => none := rfl

lemma parseMembers_quote (f : Nat) (rest : List Char) :
    parseMembers (f + 1) ('"' :: rest) =
      match parseStringBody rest with
      | some (k, rest2) =>
        match rest2 with
        | [] => none
        | d :: rest3 =>
          if d = ':' then
            match parseVal f rest3 with
            | some (v, rest4) =>
              match rest4 with
              | [] => none
              | d2 :: rest5 =>
                if d2 = ',' then
                  match parseMembers f rest5 with
                  | some (kvs, r) => some ((String.mk k, v) :: kvs, r)
                  | none => none
                else if d2 = jRB then some ([(String.mk k, v)], rest5)
                else none
            | none => none
          else none
      | none => none := rfl

lemma jChars_len2 (v : Json) : 2 ≤ (jChars v).length := by
  cases v with
  | str s => simp [jChars, quoteChars]
  | arr xs => simp [jChars]
  | obj kvs => simp [jChars]

lemma jChars_head (v : Json) :
    ∃ c t, jChars v = c :: t ∧ c ≠ ']' ∧ c ≠ jRB ∧ c ≠ ',' := by
  cases v with
  | str s =>
    exact ⟨'"', s.data.flatMap escapeChar ++ ['"'], rfl,
      by decide, by decide, by decide⟩
  | arr xs =>
    exact ⟨'[', joinComma (jCharsArr xs) ++ [']'], rfl,
      by decide, by decide, by decide⟩
  | obj kvs =>
    exact ⟨jLB, joinComma (jCharsObj kvs) ++ [jRB], rfl,
      by decide, by decide, by decide⟩

lemma joinComma_arr_head (x : Json) (xs : List Json) :
    ∃ t, joinComma (jCharsArr (x :: xs)) = jChars x ++ t := by
  cases xs with
  | nil => exact ⟨[], by simp [jCharsArr, joinComma]⟩
  | cons y ys => exact ⟨',' :: joinComma (jCharsArr (y :: ys)),
      by simp [jCharsArr, joinComma]⟩

lemma joinComma_obj_head (kv : String × Json) (kvs : List (String × Json)) :
    ∃ t, joinComma (jCharsObj (kv :: kvs)) =
      (quoteChars kv.1 ++ ':' :: jChars kv.2) ++ t := by
  cases kvs with
  | nil => exact ⟨[], by simp [jCharsObj, joinComma]⟩
  | cons kv2 kvs2 => exact ⟨',' :: joinComma (jCharsObj (kv2 :: kvs2)),
      by simp [jCharsObj, joinComma]⟩

lemma jChars_arr_len (l : List Json) :
    (jChars (.arr l)).length = (joinComma (jCharsArr l)).length + 2 := by
  simp [jChars]

lemma jChars_obj_len (l : List (String × Json)) :
    (jChars (.obj l)).length = (joinComma (jCharsObj l)).length + 2 := by
  simp [jChars]

lemma parse_adequate (f : Nat) :
    (∀ v rest, (jChars v).length ≤ f →
      parseVal f (jChars v ++ rest) = some (v, rest)) ∧
    (∀ xs rest, xs ≠ [] → (joinComma (jCharsArr xs)).length + 1 ≤ f →
      parseElems f (joinComma (jCharsArr xs) ++ ']' :: rest) = some (xs, rest)) ∧
    (∀ kvs rest, kvs ≠ [] → (joinComma (jCharsObj kvs)).length + 1 ≤ f →
      parseMembers f (joinComma (jCharsObj kvs) ++ jRB :: rest) = some (kvs, rest)) := by
  induction f with
  | zero =>
    exact ⟨fun v rest h => absurd h (by have := jChars_len2 v; omega),
      fun xs rest hne h => absurd h (by omega),
      fun kvs rest hne h => absurd h (by omega)⟩
  | succ f ih =>
    obtain ⟨ihV, ihE, ihM⟩ := ih
    refine ⟨?_, ?_, ?_⟩
    · intro v rest hlen
      cases v with
      | str s =>
        rw [show jChars (.str s) ++ rest =
          '"' :: (s.data.flatMap escapeChar ++ '"' :: rest) from by
            simp [jChars, quoteChars, List.append_assoc]]
        rw [parseVal_quote, parseStringBody_quote]
      | arr xs =>
        cases xs with
        | nil =>
          rw [show jChars (.arr []) ++ rest = '[' :: ']' :: rest from by
            simp [jChars, jCharsArr, joinComma]]
          rw [parseVal_arr, if_pos rfl]
        | cons x xs' =>
          obtain ⟨c0, t0, hct, hc1, hc2, hc3⟩ := jChars_head x
          obtain ⟨t1, ht1⟩ := joinComma_arr_head x xs'
          have hfuel : (joinComma (jCharsArr (x :: xs'))).length + 1 ≤ f := by
            have h2 := jChars_arr_len (x :: xs')
            omega
          rw [show jChars (.arr (x :: xs')) ++ rest =
            '[' :: (c0 :: (t0 ++ (t1 ++ ']' :: rest))) from by
              simp [jChars, ht1, hct, List.append_assoc]]
          rw [parseVal_arr, if_neg hc1]
          rw [show c0 :: (t0 ++ (t1 ++ ']' :: rest)) =
            joinComma (jCharsArr (x :: xs')) ++ ']' :: rest from by
              simp [ht1, hct, List.append_assoc]]
          rw [ihE (x :: xs') rest (by simp) hfuel]
      | obj kvs =>
        cases kvs with
        | nil =>
          rw [show jChars (.obj []) ++ rest = jLB :: jRB :: rest from by
            simp [jChars, jCharsObj, joinComma]]
          rw [parseVal_obj, if_pos rfl]
        | cons kv kvs' =>
          obtain ⟨t1, ht1⟩ := joinComma_obj_head kv kvs'
          have hfuel : (joinComma (jCharsObj (kv :: kvs'))).length + 1 ≤ f := by
            have h2 := jChars_obj_len (kv :: kvs')
            omega
          rw [show jChars (.obj (kv :: kvs')) ++ rest =
            jLB :: ('"' :: ((kv.1.data.flatMap escapeChar ++
              '"' :: (':' :: jChars kv.2)) ++ (t1 ++ jRB :: rest))) from by
              simp [jChars, ht1, quoteChars, List.append_assoc]]
          rw [parseVal_obj, if_neg (by decide : ¬ ('"' : Char) = jRB)]
          rw [show '"' :: ((kv.1.data.flatMap escapeChar ++
              '"' :: (':' :: jChars kv.2)) ++ (t1 ++ jRB :: rest)) =
            joinComma (jCharsObj (kv :: kvs')) ++ jRB :: rest from by
              simp [ht1, quoteChars, List.append_assoc]]
          rw [ihM (kv :: kvs') rest (by simp) hfuel]
    · intro xs rest hne hlen
      cases xs with
      | nil => exact absurd rfl hne
      | cons x xs' =>
        cases xs' with
        | nil =>
          have hj : joinComma (jCharsArr [x]) = jChars x := by
            simp [jCharsArr, joinComma]
          rw [hj] at hlen ⊢
          rw [parseElems_succ]
          rw [ihV x (']' :: rest) (by omega)]
          simp only [if_neg (by decide : ¬ (']' : Char) = ','), if_pos rfl]
          simp
        | cons y ys =>
          have hj : joinComma (jCharsArr (x :: y :: ys)) =
              jChars x ++ ',' :: joinComma (jCharsArr (y :: ys)) := by
            simp [jCharsArr, joinComma]
          have hlx := jChars_len2 x
          have hlen2 : (jChars x).length + 1 +
              (joinComma (jCharsArr (y :: ys))).length + 1 ≤ f + 1 := by
            rw [hj] at hlen
            simp [List.length_append] at hlen
            omega
          rw [hj, show (jChars x ++ ',' :: joinComma (jCharsArr (y :: ys))) ++
              ']' :: rest =
            jChars x ++ (',' :: (joinComma (jCharsArr (y :: ys)) ++ ']' :: rest))
            from by simp [List.append_assoc]]
          rw [parseElems_succ]
          rw [ihV x _ (by omega)]
          simp only [if_pos rfl]
          rw [ihE (y :: ys) rest (by simp) (by omega)]
          simp
    · intro kvs rest hne hlen
      cases kvs with
      | nil => exact absurd rfl hne
      | cons kv kvs' =>
        have hq : (quoteChars kv.1).length =
            (kv.1.data.flatMap escapeChar).length + 2 := by
          simp [quoteChars]
        cases kvs' with
        | nil =>
          have hj : joinComma (jCharsObj [kv]) =
              quoteChars kv.1 ++ ':' :: jChars kv.2 := by
            simp [jCharsObj, joinComma]
          have hlen2 : (quoteChars kv.1).length + 1 + (jChars kv.2).length + 1
              ≤ f + 1 := by
            rw [hj] at hlen
            simp [List.length_append] at hlen
            omega
          rw [hj, show (quoteChars kv.1 ++ ':' :: jChars kv.2) ++ jRB :: rest =
            '"' :: (kv.1.data.flatMap escapeChar ++
              '"' :: (':' :: (jChars kv.2 ++ jRB :: rest))) from by
              simp [quoteChars, List.append_assoc]]
          rw [parseMembers_quote, parseStringBody_quote]
          simp only [if_pos rfl]
          rw [ihV kv.2 (jRB :: rest) (by omega)]
          simp only [if_neg (by decide : ¬ jRB = ','), if_pos rfl]
          simp
        | cons kv2 kvs2 =>
          have hj : joinComma (jCharsObj (kv :: kv2 :: kvs2)) =
              (quoteChars kv.1 ++ ':' :: jChars kv.2) ++
                ',' :: joinComma (jCharsObj (kv2 :: kvs2)) := by
            simp [jCharsObj, joinComma]
          have hlen2 : (quoteChars kv.1).length + 1 + (jChars kv.2).length + 1 +
              (joinComma (jCharsObj (kv2 :: kvs2))).length + 1 ≤ f + 1 := by
            rw [hj] at hlen
            simp [List.length_append] at hlen
            omega
          rw [hj, show ((quoteChars kv.1 ++ ':' :: jChars kv.2) ++
              ',' :: joinComma (jCharsObj (kv2 :: kvs2))) ++ jRB :: rest =
            '"' :: (kv.1.data.flatMap escapeChar ++
              '"' :: (':' :: (jChars kv.2 ++
                (',' :: (joinComma (jCharsObj (kv2 :: kvs2)) ++ jRB :: rest)))))
            from by simp [quoteChars, List.append_assoc]]
          rw [parseMembers_quote, parseStringBody_quote]
          simp only [if_pos rfl]
          rw [ihV kv.2 _ (by omega)]
          simp only [if_pos rfl]
          rw [ihM (kv2 :: kvs2) rest (by simp) (by omega)]
          simp

lemma parse_stringify (v : Json) : parseJson (stringifyJson v) = some v := by
  have h := (parse_adequate ((jChars v).length + 1)).1 v [] (by omega)
  rw [List.append_nil] at h
  show (match parseVal ((jChars v).length + 1) (jChars v) with
    | some (w, []) => some w
    | _ => none) = some v
  rw [h]

lemma stringify_ne_empty (v : Json) : stringifyJson v ≠ "" := by
  intro h
  have h2 := jChars_len2 v
  have h3 : (stringifyJson v).data = ([] : List Char) := by rw [h]
  rw [show (stringifyJson v).data = jChars v from rfl] at h3
  rw [h3] at h2
  simp at h2

lemma decodeMessage_encode (m : ChatMessage) :
    decodeMessage (.obj [("role", .str (roleStr m.role)),
      ("content", .str m.content)]) = some m := by
  cases m with
  | mk role content => cases role <;> simp [decodeMessage, roleStr]

lemma decodeMessages_encode (msgs : List ChatMessage) :
    decodeMessages (encodeMessages msgs) = some msgs := by
  show List.mapM decodeMessage (msgs.map fun m =>
    Json.obj [("role", Json.str (roleStr m.role)),
      ("content", Json.str m.content)]) = some msgs
  induction msgs with
  | nil => rfl
  | cons m ms ih =>
    rw [List.map_cons, List.mapM_cons, decodeMessage_encode, ih]
    rfl

/-- C9: a `persisted(key, initial)` store starts from the JSON-parse of
the previously stored value when one exists, is truthy and parses, and
from `initial` otherwise; since the subscriber writes
`JSON.stringify(val)`, any JSON value (in particular any encoded
`messages`, `persona` or `draftInput` value) written in one session
round-trips to the identical starting value of the next session's
store, and the message encoding loses nothing. -/
theorem persisted_roundtrip (store : String → Option String) (key : String)
    (v initial : Json) :
    parseJson (stringifyJson v) = some v ∧
    persistedStart (sessionWrite store key v) key initial = v ∧
    (store key = none → persistedStart store key initial = initial) ∧
    (store key = some "" → persistedStart store key initial = initial) ∧
    (∀ raw, store key = some raw → raw ≠ "" → parseJson raw = none →
      persistedStart store key initial = initial) ∧
    (∀ msgs : List ChatMessage,
      decodeMessages (encodeMessages msgs) = some msgs) := by
  refine ⟨parse_stringify v, ?_, ?_, ?_, ?_, ?_⟩
  · unfold persistedStart sessionWrite
    rw [if_pos rfl]
    simp only []
    rw [if_neg (stringify_ne_empty v), parse_stringify v]
    rfl
  · intro h
    unfold persistedStart
    rw [h]
  · intro h
    unfold persistedStart
    rw [h]
    simp
  · intro raw h hne hparse
    unfold persistedStart
    rw [h]
    simp only []
    rw [if_neg hne, hparse]
    rfl
  · intro msgs
    exact decodeMessages_encode msgs

/-- Witness for C9 at a concrete store, key and value. -/
theorem persisted_roundtrip_witness :
    persistedStart (sessionWrite (fun _ => none) "k" (Json.str "a")) "k"
        (Json.arr []) = Json.str "a" ∧
    persistedStart (fun _ => none) "k" (Json.str "init") = Json.str "init" ∧
    decodeMessages (encodeMessages [⟨Role.user, "q"⟩]) =
      some [⟨Role.user, "q"⟩] :=
  ⟨(persisted_roundtrip (fun _ => none) "k" (Json.str "a") (Json.arr [])).2.1,
   (persisted_roundtrip (fun _ => none) "k" (Json.str "x")
      (Json.str "init")).2.2.1 rfl,
   (persisted_roundtrip (fun _ => none) "k" (Json.str "x")
      (Json.str "init")).2.2.2.2.2 [⟨Role.user, "q"⟩]⟩

end Angewandte
